import Mathlib

/-!
Shallow embedding of `src/pgds.c` (the pgds PostgreSQL extension): the
relation-reference collector (`pgds_tree_walker`, `pgds_sublink_walker`,
`pgds_add_rel_array`), the dependency-closure expander
(`pgds_build_table_array` with `pgds_get_rel_details` and the `find_tables`
view-dependency query), the statistics maintainer (`pgds_analyze_table`) and
the reentrancy-guarded entry point (`pgds_analyze`).

Modelling choices:
- OIDs are `Nat`; relkind values are the catalog letters as strings
  ("r", "p", "v", ...), exactly as compared by `strcmp` in the C code.
- The three parallel global arrays `pgds_tableoid_array`,
  `pgds_tablename_array`, `pgds_tableowner_array` (always written together at
  the shared index `pgds_table_index`) are one list of `TabEntry` triples;
  the global `pgds_rel_array` with `pgds_rel_index` is a `List Oid`.
- `elog(ERROR)` and `elog(FATAL)` both abandon the remaining statements of
  the extension code (longjmp / backend exit); both are modelled as an
  `Option PgdsError` result that propagates outward, with the state as it
  was at the point of the error (no later assignment runs).
- SPI catalog queries are a `Catalog` record of total functions; the SQL
  `find_tables` function (shipped by the extension, not in `pgds.c`) is an
  uninterpreted field returning arbitrary rows.
- Externally visible calls (catalog lookups, view expansion, statistics
  lookups, the `analyze` command) are recorded in an `Effect` trace.
-/

abbrev Oid := Nat

/-- `#define MAX_REL 1024` -/
def MAX_REL : Nat := 1024

/-- `#define MAX_TABLE 10*MAX_REL` -/
def MAX_TABLE : Nat := 10 * MAX_REL

/-- One slot of the three parallel table arrays
(`pgds_tableoid_array[i]`, `pgds_tablename_array[i]`, `pgds_tableowner_array[i]`). -/
structure TabEntry where
  oid : Oid
  name : String
  owner : Oid
deriving DecidableEq, Repr

/-- Row of `select relnamespace, relname, relkind, relowner from pg_class where oid = ...`
as consumed by `pgds_get_rel_details` (columns 2, 3, 4). -/
structure RelDetails where
  relname : String
  relkind : String
  relowner : Oid
deriving DecidableEq, Repr

/-- Row of `SELECT * from find_tables(rel_id)`: referenced rel id, name, kind, owner. -/
structure ViewDep where
  relid : Oid
  relname : String
  relkind : String
  relowner : Oid
deriving DecidableEq, Repr

/-- The `elog(ERROR)` / `elog(FATAL)` exits of the extension code. -/
inductive PgdsError where
  /-- `pgds_add_rel_array: too many relations` (elog ERROR, line 296) -/
  | tooManyRelations
  /-- `pgds_build_table_array: too many tables` (elog ERROR, lines 468/510) -/
  | tooManyTables
  /-- `rel_id not found in pg_class` (elog FATAL, line 416) -/
  | relNotFound (id : Oid)
  /-- `unexpected rel_type` (elog FATAL, line 516) -/
  | unexpectedRelKind (kind : String) (id : Oid)
  /-- `cannot run analyze for ...` (elog FATAL, line 623) -/
  | analyzeFailed (name : String)
deriving DecidableEq, Repr

/-- Externally visible calls made through SPI. -/
inductive Effect where
  /-- the `pg_class` query in `pgds_get_rel_details` -/
  | catalogLookup (id : Oid)
  /-- the `find_tables` query in `pgds_build_table_array` -/
  | viewExpand (id : Oid)
  /-- the `pg_statistic` count query in `pgds_analyze_table` -/
  | statCheck (id : Oid)
  /-- the `analyze verbose ...` utility command in `pgds_analyze_table` -/
  | runAnalyze (cmd : String)
deriving DecidableEq, Repr

/-- The external catalog / environment consumed through SPI and miscadmin:
`lookup` is the `pg_class` row for an oid (`none` = zero rows),
`findTables` the rows of the extension's `find_tables` SQL function,
`statCount` the `count(*)` from `pg_statistic where starelid = oid`,
`isSuperuser`/`currentUser` the `superuser()` / `GetUserId()` results, and
`analyzeOk cmd` whether `SPI_execute` of the analyze command returns
`SPI_OK_UTILITY`. -/
structure Catalog where
  lookup : Oid → Option RelDetails
  findTables : Oid → List ViewDep
  statCount : Oid → Nat
  isSuperuser : Bool
  currentUser : Oid
  analyzeOk : String → Bool

/-- `pgds_add_rel_array` (lines 272-297): linear scan for `relid`; if absent and
there is room, append at `pgds_rel_index`; if absent and the array is full,
`elog(ERROR, "too many relations")`. Returns the rel array as left by the call
together with the error, if any. -/
def pgds_add_rel_array (rels : List Oid) (relid : Oid) : List Oid × Option PgdsError :=
  if relid ∈ rels then (rels, none)
  else if rels.length < MAX_REL then (rels ++ [relid], none)
  else (rels, some .tooManyRelations)

/- The parsed-query reference tree: a `Query` has a range table, a CTE list,
the parser-maintained `hasSubLinks` flag, and the query-level expression
trees that `query_tree_walker` visits (target list, quals, ...). Lists are
encoded as their own cons inductives so that the walkers below are plain
mutual structural recursion. -/
mutual

inductive Query where
  | mk (rtable : RTEList) (cteList : QueryList) (hasSubLinks : Bool) (exprs : ExprList)

inductive RTEList where
  | nil
  | cons (rte : RTE) (rest : RTEList)

inductive RTE where
  /-- `RTE_RELATION`, carrying `rte->relid` -/
  | rel (relid : Oid)
  /-- `RTE_SUBQUERY`, carrying `rte->subquery` -/
  | subquery (q : Query)
  /-- any other `rtekind` (function, values, join, cte reference, ...) -/
  | other

inductive QueryList where
  | nil
  | cons (q : Query) (rest : QueryList)

inductive Expr where
  /-- a `SubLink` node: its `testexpr` children and its `subselect` query -/
  | sublink (testexpr : ExprList) (subselect : Query)
  /-- any other expression node with its children -/
  | opE (args : ExprList)

inductive ExprList where
  | nil
  | cons (e : Expr) (rest : ExprList)

end

mutual

/-- `pgds_tree_walker` (lines 299-355) on a (non-NULL) `Query` node: walk the
range table (adding `RTE_RELATION` relids, recursing into `RTE_SUBQUERY`),
walk each CTE definition, then, when `hasSubLinks` is set, run
`query_tree_walker(node, pgds_sublink_walker, QTW_IGNORE_RC_SUBQUERIES)`,
which applies `pgds_sublink_walker` to the query-level expressions while
skipping range-table and CTE subqueries. An `elog(ERROR)` inside
`pgds_add_rel_array` abandons the rest of the walk. -/
def pgds_tree_walker (rels : List Oid) : Query → List Oid × Option PgdsError
  | .mk rtable cteList hasSubLinks exprs =>
    match walkRTEList rels rtable with
    | (r1, some e) => (r1, some e)
    | (r1, none) =>
      match walkCTEList r1 cteList with
      | (r2, some e) => (r2, some e)
      | (r2, none) =>
        if hasSubLinks then walkExprList r2 exprs else (r2, none)

/-- The `foreach(lc, node->rtable)` loop of `pgds_tree_walker`. -/
def walkRTEList (rels : List Oid) : RTEList → List Oid × Option PgdsError
  | .nil => (rels, none)
  | .cons rte rest =>
    match walkRTE rels rte with
    | (r1, some e) => (r1, some e)
    | (r1, none) => walkRTEList r1 rest

/-- One range-table entry: `RTE_RELATION` adds `rte->relid`, `RTE_SUBQUERY`
recurses, other kinds are ignored. -/
def walkRTE (rels : List Oid) : RTE → List Oid × Option PgdsError
  | .rel relid => pgds_add_rel_array rels relid
  | .subquery q => pgds_tree_walker rels q
  | .other => (rels, none)

/-- The `foreach(l, node->cteList)` loop of `pgds_tree_walker`: every CTE's
defining query is walked, referenced or not. -/
def walkCTEList (rels : List Oid) : QueryList → List Oid × Option PgdsError
  | .nil => (rels, none)
  | .cons q rest =>
    match pgds_tree_walker rels q with
    | (r1, some e) => (r1, some e)
    | (r1, none) => walkCTEList r1 rest

/-- `pgds_sublink_walker` (lines 357-383) on one expression node: on a
`SubLink`, walk its `subselect` with `pgds_tree_walker`, then fall through to
`expression_tree_walker`, which visits the sublink's `testexpr` children (the
walker's re-visit of the `subselect` Query node is a no-op, per
`expression_tree_walker`'s do-nothing `T_Query` case); on any other node,
recurse into the children. -/
def pgds_sublink_walker (rels : List Oid) : Expr → List Oid × Option PgdsError
  | .sublink testexpr subselect =>
    match pgds_tree_walker rels subselect with
    | (r1, some e) => (r1, some e)
    | (r1, none) => walkExprList r1 testexpr
  | .opE args => walkExprList rels args

/-- `query_tree_walker` / `expression_tree_walker` applying
`pgds_sublink_walker` over a list of expression nodes. -/
def walkExprList (rels : List Oid) : ExprList → List Oid × Option PgdsError
  | .nil => (rels, none)
  | .cons e rest =>
    match pgds_sublink_walker rels e with
    | (r1, some er) => (r1, some er)
    | (r1, none) => walkExprList r1 rest

end

/-- `pgds_build_rel_array` (lines 388-393): run `pgds_tree_walker` on the
query; the walker's entry `if (node == NULL) return false` handles a null
root. -/
def pgds_build_rel_array (rels : List Oid) (q : Option Query) : List Oid × Option PgdsError :=
  match q with
  | none => (rels, none)
  | some q => pgds_tree_walker rels q

/-- The `for (j = 0; j < nr; j++)` loop over `find_tables` rows in
`pgds_build_table_array` (lines 491-512): a row is appended to the table
arrays only when its relkind is `"r"` and its rel id is nonzero; on a full
array, `elog(ERROR, "too many tables")`. -/
def pgds_add_view_deps (tables : List TabEntry) : List ViewDep → List TabEntry × Option PgdsError
  | [] => (tables, none)
  | dep :: rest =>
    if dep.relkind = "r" ∧ dep.relid ≠ 0 then
      if tables.length < MAX_TABLE then
        pgds_add_view_deps (tables ++ [⟨dep.relid, dep.relname, dep.relowner⟩]) rest
      else (tables, some .tooManyTables)
    else pgds_add_view_deps tables rest

/-- The row filter applied by the `find_tables` loop at line 502:
`strcmp(ref_rel_kind,"r") == 0 && ref_rel_id != 0`. -/
def viewDepKept (d : ViewDep) : Bool :=
  decide (d.relkind = "r" ∧ d.relid ≠ 0)

/-- The table-array triple built from one `find_tables` row (lines 506-508). -/
def viewDepEntry (d : ViewDep) : TabEntry :=
  ⟨d.relid, d.relname, d.relowner⟩

/-- `pgds_build_table_array` (lines 435-519): skip rel id 0; fetch the
`pg_class` row via `pgds_get_rel_details` (zero rows is `elog(FATAL)`);
relkind `"r"` or `"p"` appends the triple to the table arrays (no membership
check); relkind `"v"` runs `find_tables` and appends its `"r"`-kind rows;
any other relkind is `elog(FATAL, "unexpected rel_type")`. -/
def pgds_build_table_array (cat : Catalog) (tables : List TabEntry) (rel_id : Oid) :
    List Effect × List TabEntry × Option PgdsError :=
  if rel_id = 0 then ([], tables, none)
  else
    match cat.lookup rel_id with
    | none => ([.catalogLookup rel_id], tables, some (.relNotFound rel_id))
    | some d =>
      if d.relkind = "r" ∨ d.relkind = "p" then
        if tables.length < MAX_TABLE then
          ([.catalogLookup rel_id], tables ++ [⟨rel_id, d.relname, d.relowner⟩], none)
        else ([.catalogLookup rel_id], tables, some .tooManyTables)
      else if d.relkind = "v" then
        match pgds_add_view_deps tables (cat.findTables rel_id) with
        | (tabs, e) => ([.catalogLookup rel_id, .viewExpand rel_id], tabs, e)
      else ([.catalogLookup rel_id], tables, some (.unexpectedRelKind d.relkind rel_id))

/-- The `for (i = 0; i < pgds_rel_index; i++) pgds_build_table_array(...)`
loop of `pgds_analyze` (lines 551-552). -/
def pgds_build_table_loop (cat : Catalog) (tables : List TabEntry) :
    List Oid → List Effect × List TabEntry × Option PgdsError
  | [] => ([], tables, none)
  | r :: rest =>
    match pgds_build_table_array cat tables r with
    | (tr, tabs, some e) => (tr, tabs, some e)
    | (tr, tabs, none) =>
      (tr ++ (pgds_build_table_loop cat tabs rest).1, (pgds_build_table_loop cat tabs rest).2)

/-- The analyze command built at line 619: `"analyze verbose %s;"` with the
bare stored table name — no schema qualification, no quoting. -/
def pgds_analyze_command (name : String) : String :=
  "analyze verbose " ++ name ++ ";"

/-- `pgds_analyze_table` (lines 585-625) on one table-array slot: if the
current user is not a superuser and not the table's owner, log and return
(no error); otherwise count the table's `pg_statistic` rows, and when the
count is zero run `analyze verbose <name>;` — a result other than
`SPI_OK_UTILITY` is `elog(FATAL)`. -/
def pgds_analyze_table (cat : Catalog) (t : TabEntry) : List Effect × Option PgdsError :=
  if ¬ cat.isSuperuser = true ∧ cat.currentUser ≠ t.owner then ([], none)
  else
    if cat.statCount t.oid = 0 then
      if cat.analyzeOk (pgds_analyze_command t.name) then
        ([.statCheck t.oid, .runAnalyze (pgds_analyze_command t.name)], none)
      else
        ([.statCheck t.oid, .runAnalyze (pgds_analyze_command t.name)],
         some (.analyzeFailed t.name))
    else ([.statCheck t.oid], none)

/-- The `for (i = 0 ; i < pgds_table_index; i++) pgds_analyze_table(i)` loop
of `pgds_analyze` (lines 553-554). -/
def pgds_analyze_table_loop (cat : Catalog) : List TabEntry → List Effect × Option PgdsError
  | [] => ([], none)
  | t :: rest =>
    match pgds_analyze_table cat t with
    | (tr, some e) => (tr, some e)
    | (tr, none) =>
      (tr ++ (pgds_analyze_table_loop cat rest).1, (pgds_analyze_table_loop cat rest).2)

/-- Result of one invocation of the `post_parse_analyze` hook: the value of
`pgds_avoid_recursion` after control leaves `pgds_analyze`, the contents of
the global rel and table arrays at that point, the SPI effect trace, and the
propagated `elog(ERROR/FATAL)`, if any. -/
structure AnalyzeOut where
  guard : Nat
  rels : List Oid
  tables : List TabEntry
  trace : List Effect
  err : Option PgdsError
deriving DecidableEq, Repr

/-- `pgds_analyze` (lines 527-577): when `pgds_avoid_recursion == 0`, set it
to 1 and run the pipeline (build rel array, build table array, analyze each
table); on the success path set `pgds_avoid_recursion = 0` and reset
`pgds_rel_index` and `pgds_table_index` to 0. An `elog(ERROR)` or
`elog(FATAL)` inside the pipeline longjmps out of the hook: the three
trailing assignments do not run, so the guard stays 1 and the arrays keep
their partial contents. When the guard is already set, only log and return. -/
def pgds_analyze (cat : Catalog) (q : Option Query)
    (guard : Nat) (rels0 : List Oid) (tables0 : List TabEntry) : AnalyzeOut :=
  if guard = 0 then
    match pgds_build_rel_array rels0 q with
    | (rels1, some e) => ⟨1, rels1, tables0, [], some e⟩
    | (rels1, none) =>
      match pgds_build_table_loop cat tables0 rels1 with
      | (tr1, tabs1, some e) => ⟨1, rels1, tabs1, tr1, some e⟩
      | (tr1, tabs1, none) =>
        match pgds_analyze_table_loop cat tabs1 with
        | (tr2, some e) => ⟨1, rels1, tabs1, tr1 ++ tr2, some e⟩
        | (tr2, none) => ⟨0, [], [], tr1 ++ tr2, none⟩
  else ⟨guard, rels0, tables0, [], none⟩

/- Specification-side functions for the Collector claims: the relations
directly named anywhere reachable from a query root through the three
recursion channels (range-table entries, CTE definitions, expression
sub-links), and the well-formedness of the parser-maintained `hasSubLinks`
flag (the parser sets it whenever a sublink occurs at that query level). -/

mutual

/-- All relation ids directly named in a query, through all three channels. -/
def reachableQuery : Query → List Oid
  | .mk rtable cteList _ exprs =>
    reachableRTEList rtable ++ reachableQueryList cteList ++ reachableExprList exprs

def reachableRTEList : RTEList → List Oid
  | .nil => []
  | .cons rte rest => reachableRTE rte ++ reachableRTEList rest

def reachableRTE : RTE → List Oid
  | .rel relid => [relid]
  | .subquery q => reachableQuery q
  | .other => []

def reachableQueryList : QueryList → List Oid
  | .nil => []
  | .cons q rest => reachableQuery q ++ reachableQueryList rest

def reachableExpr : Expr → List Oid
  | .sublink testexpr subselect => reachableQuery subselect ++ reachableExprList testexpr
  | .opE args => reachableExprList args

def reachableExprList : ExprList → List Oid
  | .nil => []
  | .cons e rest => reachableExpr e ++ reachableExprList rest

end

mutual

/-- Does an expression contain a `SubLink` node (at this query level)? -/
def exprHasSubLink : Expr → Bool
  | .sublink _ _ => true
  | .opE args => exprListHasSubLink args

def exprListHasSubLink : ExprList → Bool
  | .nil => false
  | .cons e rest => exprHasSubLink e || exprListHasSubLink rest

end

mutual

/-- The parser invariant on query trees: at every level, if `hasSubLinks` is
false then the level's expressions contain no `SubLink` node. -/
def wfQuery : Query → Bool
  | .mk rtable cteList hasSubLinks exprs =>
    wfRTEList rtable && wfQueryList cteList && wfExprList exprs &&
      (hasSubLinks || !exprListHasSubLink exprs)

def wfRTEList : RTEList → Bool
  | .nil => true
  | .cons rte rest => wfRTE rte && wfRTEList rest

def wfRTE : RTE → Bool
  | .rel _ => true
  | .subquery q => wfQuery q
  | .other => true

def wfQueryList : QueryList → Bool
  | .nil => true
  | .cons q rest => wfQuery q && wfQueryList rest

def wfExpr : Expr → Bool
  | .sublink testexpr subselect => wfQuery subselect && wfExprList testexpr
  | .opE args => wfExprList args

def wfExprList : ExprList → Bool
  | .nil => true
  | .cons e rest => wfExpr e && wfExprList rest

end

/- Concrete inputs used by counterexamples and witnesses. -/

/-- A catalog with table `a` (oid 100, relkind `"r"`, owner 10) and view `v1`
(oid 200) whose `find_tables` expansion returns table `a` again: the shape of
a query that reads table `a` both directly and through a view. -/
def catDup : Catalog where
  lookup i :=
    if i = 100 then some ⟨"a", "r", 10⟩
    else if i = 200 then some ⟨"v1", "v", 10⟩
    else none
  findTables i := if i = 200 then [⟨100, "a", "r", 10⟩] else []
  statCount _ := 1
  isSuperuser := true
  currentUser := 10
  analyzeOk _ := true

/-- `SELECT ... FROM a, v1`: a range table with the two direct relation
references 100 (table) and 200 (view). -/
def qDup : Query :=
  .mk (.cons (.rel 100) (.cons (.rel 200) .nil)) .nil false .nil

/-- A catalog whose only content is view 300 whose `find_tables` expansion
returns one partitioned table (relkind `"p"`, oid 101). -/
def catPart : Catalog where
  lookup i := if i = 300 then some ⟨"v2", "v", 10⟩ else none
  findTables i := if i = 300 then [⟨101, "part1", "p", 10⟩] else []
  statCount _ := 1
  isSuperuser := true
  currentUser := 10
  analyzeOk _ := true

/-- An empty catalog: every `pg_class` lookup returns zero rows. -/
def catEmpty : Catalog where
  lookup _ := none
  findTables _ := []
  statCount _ := 0
  isSuperuser := false
  currentUser := 10
  analyzeOk _ := true

/-- A query whose range table names the single relation 42. -/
def qRel42 : Query :=
  .mk (.cons (.rel 42) .nil) .nil false .nil

/-- A query exercising all three recursion channels: range-table relation 1,
a range-table subquery naming 2, a CTE naming 3, and a sublink whose
subselect names 4. -/
def qAll : Query :=
  .mk
    (.cons (.rel 1)
      (.cons (.subquery (.mk (.cons (.rel 2) .nil) .nil false .nil)) .nil))
    (.cons (.mk (.cons (.rel 3) .nil) .nil false .nil) .nil)
    true
    (.cons (.sublink .nil (.mk (.cons (.rel 4) .nil) .nil false .nil)) .nil)

/-- A catalog for the maintainer witnesses: table `t1` (oid 7, owner 10) has
no statistics; the current user 10 is not superuser. -/
def catMaint : Catalog where
  lookup i := if i = 7 then some ⟨"t1", "r", 10⟩ else none
  findTables _ := []
  statCount _ := 0
  isSuperuser := false
  currentUser := 10
  analyzeOk _ := true

/-- A catalog identical to `catMaint` except that the analyze command fails
(`SPI_execute` does not return `SPI_OK_UTILITY`). -/
def catMaintFail : Catalog where
  lookup i := if i = 7 then some ⟨"t1", "r", 10⟩ else none
  findTables _ := []
  statCount _ := 0
  isSuperuser := false
  currentUser := 10
  analyzeOk _ := false

/- ------------------------------------------------------------------ -/
/- Theorems.                                                           -/
/- ------------------------------------------------------------------ -/

/-- Claim C3: invoking the pipeline entry point while the Invocation Guard
(`pgds_avoid_recursion`) is nonzero returns immediately: no reference-tree
walk, no catalog lookups, no maintenance calls (empty effect trace), no
error, and the guard and both global arrays are left untouched. -/
theorem C3_reentrant_invocation_skips (cat : Catalog) (q : Option Query)
    (rels : List Oid) (tables : List TabEntry) (guard : Nat) (h : guard ≠ 0) :
    pgds_analyze cat q guard rels tables = ⟨guard, rels, tables, [], none⟩ := by
  unfold pgds_analyze
  rw [if_neg h]

theorem C3_reentrant_invocation_skips_witness :
    (1 : Nat) ≠ 0 ∧ pgds_analyze catEmpty none 1 [] [] = ⟨1, [], [], [], none⟩ :=
  ⟨by decide, C3_reentrant_invocation_skips catEmpty none [] [] 1 (by decide)⟩

/-- Claim C2 (evaluation at the failing input): a pipeline run that starts
with the guard Idle (0) and hits the fatal `rel_id not found in pg_class`
path leaves `pgds_avoid_recursion` at 1 when control leaves `pgds_analyze` —
the `pgds_avoid_recursion = 0` assignment at line 557 is unreachable once
`elog` unwinds the stack, so the guard is NOT back to Idle on the
fatal-error path. -/
theorem C2_fatal_error_leaves_guard_running :
    (∀ (cat : Catalog) (q : Option Query) (rels : List Oid)
      (tables : List TabEntry) (out : AnalyzeOut),
      pgds_analyze cat q 0 rels tables = out → out.err.isSome = true →
      out.guard = 1) ∧
    pgds_analyze catEmpty (some qRel42) 0 [] [] =
      ⟨1, [42], [], [.catalogLookup 42], some (.relNotFound 42)⟩ := by
  constructor
  · intro cat q rels tables out h herr
    unfold pgds_analyze at h
    rw [if_pos rfl] at h
    split at h
    · rw [← h]
    · split at h
      · rw [← h]
      · split at h
        · rw [← h]
        · rw [← h] at herr
          simp at herr
  · decide

theorem C2_fatal_error_leaves_guard_running_witness :
    (pgds_analyze catEmpty (some qRel42) 0 [] []).err.isSome = true ∧
    (pgds_analyze catEmpty (some qRel42) 0 [] []).guard = 1 :=
  ⟨by decide,
   C2_fatal_error_leaves_guard_running.1 catEmpty (some qRel42) [] []
     (pgds_analyze catEmpty (some qRel42) 0 [] []) rfl (by decide)⟩

/-- Claim C5: for an authorized table (superuser or owner), the external
statistics-collection command appears in the maintenance trace exactly when
the catalog reports zero `pg_statistic` rows for the table. -/
theorem C5_maintain_iff_statistics_missing (cat : Catalog) (t : TabEntry)
    (hauth : cat.isSuperuser = true ∨ cat.currentUser = t.owner) :
    (∃ c, Effect.runAnalyze c ∈ (pgds_analyze_table cat t).1) ↔
      cat.statCount t.oid = 0 := by
  have hcond : ¬ (¬ cat.isSuperuser = true ∧ cat.currentUser ≠ t.owner) := by
    rcases hauth with h | h
    · intro hc; exact hc.1 h
    · intro hc; exact hc.2 h
  unfold pgds_analyze_table
  rw [if_neg hcond]
  by_cases hs : cat.statCount t.oid = 0
  · rw [if_pos hs]
    by_cases ha : cat.analyzeOk (pgds_analyze_command t.name) = true
    · rw [if_pos ha]
      simp [hs]
    · rw [if_neg ha]
      simp [hs]
  · rw [if_neg hs]
    simp [hs]

theorem C5_maintain_iff_statistics_missing_witness :
    (catMaint.isSuperuser = true ∨ catMaint.currentUser = (10 : Oid)) ∧
    ∃ c, Effect.runAnalyze c ∈ (pgds_analyze_table catMaint ⟨7, "t1", 10⟩).1 :=
  ⟨Or.inr rfl,
   (C5_maintain_iff_statistics_missing catMaint ⟨7, "t1", 10⟩ (Or.inr rfl)).mpr rfl⟩

/-- Claim C6: a table whose owner is not the invoking principal (who is not
superuser) is skipped with no effects and no error, and the maintenance loop
on the remaining tables is exactly the loop without that table. -/
theorem C6_unauthorized_table_skipped (cat : Catalog) (t : TabEntry)
    (rest : List TabEntry) (hsu : cat.isSuperuser = false)
    (hown : cat.currentUser ≠ t.owner) :
    pgds_analyze_table cat t = ([], none) ∧
    pgds_analyze_table_loop cat (t :: rest) = pgds_analyze_table_loop cat rest := by
  have h1 : pgds_analyze_table cat t = ([], none) := by
    unfold pgds_analyze_table
    rw [if_pos ⟨by rw [hsu]; exact Bool.false_ne_true, hown⟩]
  refine ⟨h1, ?_⟩
  have hstep : pgds_analyze_table_loop cat (t :: rest) =
      match pgds_analyze_table cat t with
      | (tr, some e) => (tr, some e)
      | (tr, none) =>
        (tr ++ (pgds_analyze_table_loop cat rest).1,
         (pgds_analyze_table_loop cat rest).2) := rfl
  rw [hstep, h1]
  simp

theorem C6_unauthorized_table_skipped_witness :
    catMaint.isSuperuser = false ∧ catMaint.currentUser ≠ (11 : Oid) ∧
    pgds_analyze_table catMaint ⟨8, "t2", 11⟩ = ([], none) ∧
    pgds_analyze_table_loop catMaint [⟨8, "t2", 11⟩] = pgds_analyze_table_loop catMaint [] :=
  ⟨rfl, by decide,
   (C6_unauthorized_table_skipped catMaint ⟨8, "t2", 11⟩ [] rfl (by decide)).1,
   (C6_unauthorized_table_skipped catMaint ⟨8, "t2", 11⟩ [] rfl (by decide)).2⟩

/-- Claim C7: when the external statistics-collection call fails for a table
(`SPI_execute` of the analyze command does not return `SPI_OK_UTILITY`), the
whole maintenance loop aborts with the fatal error at that table: the trace
ends with that table's two calls and none of the remaining tables is
touched, with no retry. -/
theorem C7_maintenance_failure_aborts_statement (cat : Catalog)
    (pre : List TabEntry) (t : TabEntry) (post : List TabEntry)
    (hpre : (pgds_analyze_table_loop cat pre).2 = none)
    (hauth : cat.isSuperuser = true ∨ cat.currentUser = t.owner)
    (hmiss : cat.statCount t.oid = 0)
    (hfail : cat.analyzeOk (pgds_analyze_command t.name) = false) :
    pgds_analyze_table_loop cat (pre ++ t :: post) =
      ((pgds_analyze_table_loop cat pre).1 ++
        [.statCheck t.oid, .runAnalyze (pgds_analyze_command t.name)],
       some (.analyzeFailed t.name)) := by
  have hcond : ¬ (¬ cat.isSuperuser = true ∧ cat.currentUser ≠ t.owner) := by
    rcases hauth with h | h
    · intro hc; exact hc.1 h
    · intro hc; exact hc.2 h
  have ht : pgds_analyze_table cat t =
      ([.statCheck t.oid, .runAnalyze (pgds_analyze_command t.name)],
       some (.analyzeFailed t.name)) := by
    unfold pgds_analyze_table
    rw [if_neg hcond, if_pos hmiss, if_neg (by rw [hfail]; exact Bool.false_ne_true)]
  induction pre with
  | nil =>
    simp only [List.nil_append]
    have hstep : pgds_analyze_table_loop cat (t :: post) =
        match pgds_analyze_table cat t with
        | (tr, some e) => (tr, some e)
        | (tr, none) =>
          (tr ++ (pgds_analyze_table_loop cat post).1,
           (pgds_analyze_table_loop cat post).2) := rfl
    rw [hstep, ht]
    rfl
  | cons p ps ih =>
    have hstep0 : pgds_analyze_table_loop cat (p :: ps) =
        match pgds_analyze_table cat p with
        | (tr, some e) => (tr, some e)
        | (tr, none) =>
          (tr ++ (pgds_analyze_table_loop cat ps).1,
           (pgds_analyze_table_loop cat ps).2) := rfl
    have hstep : pgds_analyze_table_loop cat (p :: (ps ++ t :: post)) =
        match pgds_analyze_table cat p with
        | (tr, some e) => (tr, some e)
        | (tr, none) =>
          (tr ++ (pgds_analyze_table_loop cat (ps ++ t :: post)).1,
           (pgds_analyze_table_loop cat (ps ++ t :: post)).2) := rfl
    cases hp : pgds_analyze_table cat p with
    | mk trp ep =>
      rw [hstep0, hp] at hpre
      cases ep with
      | some e => simp at hpre
      | none =>
        simp only at hpre
        have h2 := ih hpre
        simp only [List.cons_append]
        rw [hstep, hp, h2, hstep0, hp]
        simp [List.append_assoc]

theorem C7_maintenance_failure_aborts_statement_witness :
    pgds_analyze_table_loop catMaintFail ([] ++ ⟨7, "t1", 10⟩ :: [⟨8, "t2", 10⟩]) =
      ((pgds_analyze_table_loop catMaintFail []).1 ++
        [.statCheck 7, .runAnalyze (pgds_analyze_command "t1")],
       some (.analyzeFailed "t1")) :=
  C7_maintenance_failure_aborts_statement catMaintFail [] ⟨7, "t1", 10⟩
    [⟨8, "t2", 10⟩] rfl (Or.inr rfl) rfl rfl

/-- Claim C10: the maintenance command is `analyze verbose <bare name>;`,
built from the stored name string alone (no schema qualification, no
quoting): the trace records exactly that command, and two table entries with
equal names — whatever their oids or owners — yield identical commands. -/
theorem C10_command_depends_on_name_only (cat : Catalog) (t : TabEntry)
    (hauth : cat.isSuperuser = true ∨ cat.currentUser = t.owner)
    (hmiss : cat.statCount t.oid = 0)
    (hok : cat.analyzeOk (pgds_analyze_command t.name) = true) :
    (pgds_analyze_table cat t).1 =
      [.statCheck t.oid, .runAnalyze (pgds_analyze_command t.name)] ∧
    pgds_analyze_command t.name = "analyze verbose " ++ t.name ++ ";" ∧
    (∀ t2 : TabEntry, t.name = t2.name →
      pgds_analyze_command t.name = pgds_analyze_command t2.name) := by
  have hcond : ¬ (¬ cat.isSuperuser = true ∧ cat.currentUser ≠ t.owner) := by
    rcases hauth with h | h
    · intro hc; exact hc.1 h
    · intro hc; exact hc.2 h
  refine ⟨?_, rfl, fun t2 h2 => by rw [h2]⟩
  unfold pgds_analyze_table
  rw [if_neg hcond, if_pos hmiss, if_pos hok]

theorem C10_command_depends_on_name_only_witness :
    (pgds_analyze_table catMaint ⟨7, "t1", 10⟩).1 =
      [.statCheck 7, .runAnalyze (pgds_analyze_command "t1")] ∧
    pgds_analyze_command "t1" = pgds_analyze_command "t1" :=
  ⟨(C10_command_depends_on_name_only catMaint ⟨7, "t1", 10⟩ (Or.inr rfl) rfl rfl).1,
   (C10_command_depends_on_name_only catMaint ⟨7, "t1", 10⟩ (Or.inr rfl) rfl rfl).2.2
     ⟨99, "t1", 3⟩ rfl⟩

/-- Claim C1 counterexample: with table 100 (`a`) referenced directly and
also reachable through view 200 (`v1`, whose `find_tables` expansion returns
`a`), the collector output is the deduplicated [100, 200] but the expander's
resolved-table sequence has oid column [100, 100]: `pgds_build_table_array`
performs no membership check before appending, so the same base table
appears twice. -/
theorem C1_counterexample_duplicate_resolved_table :
    (pgds_build_rel_array [] (some qDup)).1 = [100, 200] ∧
    ((pgds_build_table_loop catDup []
        (pgds_build_rel_array [] (some qDup)).1).2.1).map TabEntry.oid = [100, 100] ∧
    ¬ List.Nodup (((pgds_build_table_loop catDup []
        (pgds_build_rel_array [] (some qDup)).1).2.1).map TabEntry.oid) :=
  ⟨by decide, by decide, by decide⟩

/-- Claim C1 (amended): deduplication by id happens only in the Collector
(`pgds_add_rel_array` never produces a duplicate rel id), while the
Expander's resolved-table sequence is appended to with no membership check,
so a base table reachable both directly and through a view appears once per
path (here: oid column [100, 100]). -/
theorem C1_amended_dedup_only_in_collector :
    (∀ (rels : List Oid) (r : Oid), rels.Nodup →
      ((pgds_add_rel_array rels r).1).Nodup) ∧
    ((pgds_build_table_loop catDup [] [100, 200]).2.1).map TabEntry.oid = [100, 100] := by
  constructor
  · intro rels r h
    by_cases hmem : r ∈ rels
    · simp [pgds_add_rel_array, hmem, h]
    · by_cases hlen : rels.length < MAX_REL
      · simp only [pgds_add_rel_array, if_neg hmem, if_pos hlen]
        refine List.nodup_append.mpr ⟨h, List.nodup_singleton r, ?_⟩
        intro a ha hb
        rw [List.mem_singleton] at hb
        subst hb
        exact hmem ha
      · simp [pgds_add_rel_array, hmem, hlen, h]
  · decide

theorem C1_amended_dedup_only_in_collector_witness :
    List.Nodup ([5] : List Oid) ∧ ((pgds_add_rel_array [5] 7).1).Nodup :=
  ⟨by decide, C1_amended_dedup_only_in_collector.1 [5] 7 (by decide)⟩

/-- Claim C4 counterexample: view 300's `find_tables` expansion returns a
partitioned-table dependency (relkind `"p"`, oid 101), yet the expander adds
nothing: the loop at line 502 keeps only relkind `"r"` rows, so a
partitioned table reachable only through a view is missing from the resolved
sequence. -/
theorem C4_counterexample_partitioned_dep_dropped :
    catPart.findTables 300 = [⟨101, "part1", "p", 10⟩] ∧
    catPart.lookup 300 = some ⟨"v2", "v", 10⟩ ∧
    (pgds_build_table_array catPart [] 300).2.1 = [] :=
  ⟨by decide, by decide, by decide⟩

/-- Claim C4 (amended): of the dependencies returned by the Catalog Client's
view expansion, exactly those with relkind `"r"` (ordinary table) and a
nonzero rel id are appended to the resolved sequence — partitioned-table
(`"p"`) dependencies of a view are skipped; a partitioned table enters the
sequence only when its id is in the Collector's set directly. -/
theorem C4_amended_only_ordinary_view_deps_added :
    (∀ (tables : List TabEntry) (deps : List ViewDep),
      (pgds_add_view_deps tables deps).2 = none →
      (pgds_add_view_deps tables deps).1 =
        tables ++ (deps.filter viewDepKept).map viewDepEntry) ∧
    (∀ (cat : Catalog) (tables : List TabEntry) (rel_id : Oid) (d : RelDetails),
      cat.lookup rel_id = some d → d.relkind = "p" → rel_id ≠ 0 →
      tables.length < MAX_TABLE →
      (pgds_build_table_array cat tables rel_id).2.1 =
        tables ++ [⟨rel_id, d.relname, d.relowner⟩]) := by
  constructor
  · intro tables deps
    induction deps generalizing tables with
    | nil => intro _; simp [pgds_add_view_deps]
    | cons d rest ih =>
      intro h
      by_cases hk : d.relkind = "r" ∧ d.relid ≠ 0
      · have hkb : viewDepKept d = true := by
          simp [viewDepKept, hk.1, hk.2]
        by_cases hlen : tables.length < MAX_TABLE
        · have hfil : List.filter viewDepKept (d :: rest) =
              d :: List.filter viewDepKept rest := by
            simp [List.filter_cons, hkb]
          simp only [pgds_add_view_deps, if_pos hk, if_pos hlen] at h ⊢
          rw [ih _ h, hfil]
          simp [viewDepEntry, List.append_assoc]
        · simp [pgds_add_view_deps, if_pos hk, if_neg hlen] at h
      · have hkb : viewDepKept d = false := by
          simp only [viewDepKept, decide_eq_false_iff_not]
          exact hk
        have hfil : List.filter viewDepKept (d :: rest) =
            List.filter viewDepKept rest := by
          simp [List.filter_cons, hkb]
        simp only [pgds_add_view_deps, if_neg hk] at h ⊢
        rw [ih _ h, hfil]
  · intro cat tables rel_id d hlook hp h0 hlen
    simp only [pgds_build_table_array, if_neg h0, hlook,
      if_pos (Or.inr hp : d.relkind = "r" ∨ d.relkind = "p"), if_pos hlen]

theorem C4_amended_only_ordinary_view_deps_added_witness :
    (pgds_add_view_deps [] [⟨100, "a", "r", 10⟩, ⟨101, "part1", "p", 10⟩]).2 = none ∧
    (pgds_add_view_deps [] [⟨100, "a", "r", 10⟩, ⟨101, "part1", "p", 10⟩]).1 =
      [] ++ (([⟨100, "a", "r", 10⟩, ⟨101, "part1", "p", 10⟩] : List ViewDep).filter
        viewDepKept).map viewDepEntry :=
  ⟨by decide,
   C4_amended_only_ordinary_view_deps_added.1 []
     [⟨100, "a", "r", 10⟩, ⟨101, "part1", "p", 10⟩] (by decide)⟩

/-- Claim C9: exceeding `MAX_REL` in the reference set or `MAX_TABLE` in the
resolved-table sequence raises the `elog(ERROR)` "too many" error with the
collection left exactly as it was (no truncation, no out-of-bounds write),
and under the precondition that the counts stay within bounds the error
branch is unreachable and every insertion keeps the count within the array
capacity. -/
theorem C9_capacity_error_not_truncation :
    (∀ (rels : List Oid) (r : Oid), rels.length < MAX_REL →
      (pgds_add_rel_array rels r).2 = none ∧
      (pgds_add_rel_array rels r).1.length ≤ MAX_REL) ∧
    (∀ (rels : List Oid) (r : Oid), MAX_REL ≤ rels.length → r ∉ rels →
      pgds_add_rel_array rels r = (rels, some .tooManyRelations)) ∧
    (∀ (tables : List TabEntry) (dep : ViewDep) (rest : List ViewDep),
      MAX_TABLE ≤ tables.length → dep.relkind = "r" → dep.relid ≠ 0 →
      pgds_add_view_deps tables (dep :: rest) = (tables, some .tooManyTables)) ∧
    (∀ (tables : List TabEntry) (deps : List ViewDep),
      tables.length + deps.length ≤ MAX_TABLE →
      (pgds_add_view_deps tables deps).2 = none ∧
      (pgds_add_view_deps tables deps).1.length ≤ MAX_TABLE) ∧
    (∀ (cat : Catalog) (tables : List TabEntry) (rel_id : Oid) (d : RelDetails),
      MAX_TABLE ≤ tables.length → rel_id ≠ 0 → cat.lookup rel_id = some d →
      (d.relkind = "r" ∨ d.relkind = "p") →
      (pgds_build_table_array cat tables rel_id).2.2 = some .tooManyTables) := by
  refine ⟨?_, ?_, ?_, ?_, ?_⟩
  · intro rels r hlen
    by_cases hmem : r ∈ rels
    · simp [pgds_add_rel_array, hmem]
      omega
    · simp [pgds_add_rel_array, hmem, hlen]
      omega
  · intro rels r hlen hmem
    simp only [pgds_add_rel_array, if_neg hmem, if_neg (by omega : ¬ rels.length < MAX_REL)]
  · intro tables dep rest hlen hk hid
    simp only [pgds_add_view_deps,
      if_pos (show dep.relkind = "r" ∧ dep.relid ≠ 0 from ⟨hk, hid⟩),
      if_neg (by omega : ¬ tables.length < MAX_TABLE)]
  · intro tables deps
    induction deps generalizing tables with
    | nil =>
      intro h
      refine ⟨rfl, ?_⟩
      simpa [pgds_add_view_deps] using h
    | cons d rest ih =>
      intro h
      simp only [List.length_cons] at h
      by_cases hk : d.relkind = "r" ∧ d.relid ≠ 0
      · have hlen : tables.length < MAX_TABLE := by omega
        simp only [pgds_add_view_deps, if_pos hk, if_pos hlen]
        exact ih _ (by simp; omega)
      · simp only [pgds_add_view_deps, if_neg hk]
        exact ih _ (by omega)
  · intro cat tables rel_id d hlen h0 hlook hkind
    simp only [pgds_build_table_array, if_neg h0, hlook, if_pos hkind,
      if_neg (by omega : ¬ tables.length < MAX_TABLE)]

theorem C9_capacity_error_not_truncation_witness :
    ([] : List Oid).length < MAX_REL ∧
    (pgds_add_rel_array [] 5).2 = none ∧
    (2000 : Oid) ∉ List.range MAX_REL ∧
    pgds_add_rel_array (List.range MAX_REL) 2000 =
      (List.range MAX_REL, some .tooManyRelations) ∧
    pgds_add_view_deps (List.replicate MAX_TABLE ⟨1, "x", 1⟩) [⟨2, "y", "r", 2⟩] =
      (List.replicate MAX_TABLE ⟨1, "x", 1⟩, some .tooManyTables) :=
  ⟨by decide,
   (C9_capacity_error_not_truncation.1 [] 5 (by decide)).1,
   by simp only [List.mem_range, MAX_REL]; decide,
   C9_capacity_error_not_truncation.2.1 (List.range MAX_REL) 2000
     (by simp) (by simp only [List.mem_range, MAX_REL]; decide),
   C9_capacity_error_not_truncation.2.2.1 (List.replicate MAX_TABLE ⟨1, "x", 1⟩)
     ⟨2, "y", "r", 2⟩ [] (by simp) rfl (by decide)⟩

/- Supporting lemmas for the Collector completeness claim. -/

theorem pgds_add_rel_array_mono {rels : List Oid} {r x : Oid} (hx : x ∈ rels) :
    x ∈ (pgds_add_rel_array rels r).1 := by
  unfold pgds_add_rel_array
  split
  · exact hx
  · split
    · exact List.mem_append_left _ hx
    · exact hx

theorem pgds_add_rel_array_mem {rels : List Oid} {r : Oid} {st' : List Oid}
    (h : pgds_add_rel_array rels r = (st', none)) : r ∈ st' := by
  unfold pgds_add_rel_array at h
  split at h
  · rename_i hmem
    injection h with h1 h2
    subst h1
    exact hmem
  · split at h
    · injection h with h1 h2
      subst h1
      exact List.mem_append_right _ (List.mem_singleton_self r)
    · injection h with h1 h2
      exact Option.noConfusion h2

mutual

theorem pgds_tree_walker_mono (rels : List Oid) (q : Query) (x : Oid) (hx : x ∈ rels) :
    x ∈ (pgds_tree_walker rels q).1 := by
  match q with
  | .mk rtable cteList hsl exprs =>
    have h1 := walkRTEList_mono rels rtable x hx
    unfold pgds_tree_walker
    cases hr : walkRTEList rels rtable with
    | mk r1 e1 =>
      rw [hr] at h1
      cases e1 with
      | some e => exact h1
      | none =>
        show x ∈ (match walkCTEList r1 cteList with
          | (r2, some e) => (r2, some e)
          | (r2, none) => if hsl then walkExprList r2 exprs else (r2, none)).1
        have h2 := walkCTEList_mono r1 cteList x h1
        cases hc : walkCTEList r1 cteList with
        | mk r2 e2 =>
          rw [hc] at h2
          cases e2 with
          | some e => exact h2
          | none =>
            cases hsl with
            | true => exact walkExprList_mono r2 exprs x h2
            | false => exact h2

theorem walkRTEList_mono (rels : List Oid) (l : RTEList) (x : Oid) (hx : x ∈ rels) :
    x ∈ (walkRTEList rels l).1 := by
  match l with
  | .nil => exact hx
  | .cons rte rest =>
    have h1 := walkRTE_mono rels rte x hx
    unfold walkRTEList
    cases hr : walkRTE rels rte with
    | mk r1 e1 =>
      rw [hr] at h1
      cases e1 with
      | some e => exact h1
      | none => exact walkRTEList_mono r1 rest x h1

theorem walkRTE_mono (rels : List Oid) (rte : RTE) (x : Oid) (hx : x ∈ rels) :
    x ∈ (walkRTE rels rte).1 := by
  match rte with
  | .rel relid => exact pgds_add_rel_array_mono hx
  | .subquery q => exact pgds_tree_walker_mono rels q x hx
  | .other => exact hx

theorem walkCTEList_mono (rels : List Oid) (l : QueryList) (x : Oid) (hx : x ∈ rels) :
    x ∈ (walkCTEList rels l).1 := by
  match l with
  | .nil => exact hx
  | .cons q rest =>
    have h1 := pgds_tree_walker_mono rels q x hx
    unfold walkCTEList
    cases hr : pgds_tree_walker rels q with
    | mk r1 e1 =>
      rw [hr] at h1
      cases e1 with
      | some e => exact h1
      | none => exact walkCTEList_mono r1 rest x h1

theorem pgds_sublink_walker_mono (rels : List Oid) (e : Expr) (x : Oid) (hx : x ∈ rels) :
    x ∈ (pgds_sublink_walker rels e).1 := by
  match e with
  | .sublink testexpr subselect =>
    have h1 := pgds_tree_walker_mono rels subselect x hx
    unfold pgds_sublink_walker
    cases hr : pgds_tree_walker rels subselect with
    | mk r1 e1 =>
      rw [hr] at h1
      cases e1 with
      | some er => exact h1
      | none => exact walkExprList_mono r1 testexpr x h1
  | .opE args => exact walkExprList_mono rels args x hx

theorem walkExprList_mono (rels : List Oid) (l : ExprList) (x : Oid) (hx : x ∈ rels) :
    x ∈ (walkExprList rels l).1 := by
  match l with
  | .nil => exact hx
  | .cons e rest =>
    have h1 := pgds_sublink_walker_mono rels e x hx
    unfold walkExprList
    cases hr : pgds_sublink_walker rels e with
    | mk r1 e1 =>
      rw [hr] at h1
      cases e1 with
      | some er => exact h1
      | none => exact walkExprList_mono r1 rest x h1

end

mutual

theorem reachableExpr_eq_nil_of_no_sublink (e : Expr) (h : exprHasSubLink e = false) :
    reachableExpr e = [] := by
  match e with
  | .sublink t s => simp [exprHasSubLink] at h
  | .opE args =>
    unfold exprHasSubLink at h
    exact reachableExprList_eq_nil_of_no_sublink args h

theorem reachableExprList_eq_nil_of_no_sublink (l : ExprList)
    (h : exprListHasSubLink l = false) : reachableExprList l = [] := by
  match l with
  | .nil => rfl
  | .cons e rest =>
    unfold exprListHasSubLink at h
    rw [Bool.or_eq_false_iff] at h
    have he := reachableExpr_eq_nil_of_no_sublink e h.1
    have hr := reachableExprList_eq_nil_of_no_sublink rest h.2
    unfold reachableExprList
    rw [he, hr]
    rfl

end

mutual

theorem pgds_tree_walker_complete (rels : List Oid) (q : Query) (st' : List Oid)
    (hwf : wfQuery q = true) (h : pgds_tree_walker rels q = (st', none)) :
    ∀ x ∈ reachableQuery q, x ∈ st' := by
  match q with
  | .mk rtable cteList hsl exprs =>
    simp only [wfQuery, Bool.and_eq_true] at hwf
    obtain ⟨⟨⟨hwfR, hwfC⟩, hwfE⟩, hflag⟩ := hwf
    unfold pgds_tree_walker at h
    cases hr : walkRTEList rels rtable with
    | mk r1 e1 =>
      rw [hr] at h
      cases e1 with
      | some e =>
        have hbad : ((r1 : List Oid), some e) = (st', none) := h
        exact absurd hbad (by simp)
      | none =>
        have hA : (match walkCTEList r1 cteList with
            | (r2, some e) => (r2, some e)
            | (r2, none) => if hsl then walkExprList r2 exprs else (r2, none))
            = (st', none) := h
        cases hc : walkCTEList r1 cteList with
        | mk r2 e2 =>
          rw [hc] at hA
          cases e2 with
          | some e =>
            have hbad : ((r2 : List Oid), some e) = (st', none) := hA
            exact absurd hbad (by simp)
          | none =>
            have h : (if hsl then walkExprList r2 exprs else (r2, none))
                = (st', none) := hA
            intro x hx
            unfold reachableQuery at hx
            rcases List.mem_append.mp hx with hx12 | hx3
            · rcases List.mem_append.mp hx12 with hx1 | hx2
              · have hm1 := walkRTEList_complete rels rtable r1 hwfR hr x hx1
                have hm2 := walkCTEList_mono r1 cteList x hm1
                rw [hc] at hm2
                cases hsl with
                | true =>
                  have h' : walkExprList r2 exprs = (st', none) := h
                  have hm3 := walkExprList_mono r2 exprs x hm2
                  rw [h'] at hm3
                  exact hm3
                | false =>
                  have h' : ((r2 : List Oid), (none : Option PgdsError)) = (st', none) := h
                  injection h' with h1 h2
                  rw [← h1]
                  exact hm2
              · have hm1 := walkCTEList_complete r1 cteList r2 hwfC hc x hx2
                cases hsl with
                | true =>
                  have h' : walkExprList r2 exprs = (st', none) := h
                  have hm3 := walkExprList_mono r2 exprs x hm1
                  rw [h'] at hm3
                  exact hm3
                | false =>
                  have h' : ((r2 : List Oid), (none : Option PgdsError)) = (st', none) := h
                  injection h' with h1 h2
                  rw [← h1]
                  exact hm1
            · cases hsl with
              | true =>
                have h' : walkExprList r2 exprs = (st', none) := h
                exact walkExprList_complete r2 exprs st' hwfE h' x hx3
              | false =>
                have hnos : exprListHasSubLink exprs = false := by
                  simpa using hflag
                rw [reachableExprList_eq_nil_of_no_sublink exprs hnos] at hx3
                exact absurd hx3 (List.not_mem_nil x)

theorem walkRTEList_complete (rels : List Oid) (l : RTEList) (st' : List Oid)
    (hwf : wfRTEList l = true) (h : walkRTEList rels l = (st', none)) :
    ∀ x ∈ reachableRTEList l, x ∈ st' := by
  match l with
  | .nil =>
    intro x hx
    exact absurd hx (List.not_mem_nil x)
  | .cons rte rest =>
    simp only [wfRTEList, Bool.and_eq_true] at hwf
    unfold walkRTEList at h
    cases hr : walkRTE rels rte with
    | mk r1 e1 =>
      rw [hr] at h
      cases e1 with
      | some e => exact absurd h (by simp)
      | none =>
        have h' : walkRTEList r1 rest = (st', none) := h
        intro x hx
        unfold reachableRTEList at hx
        rcases List.mem_append.mp hx with hx1 | hx2
        · have hm := walkRTE_complete rels rte r1 hwf.1 hr x hx1
          have hmono := walkRTEList_mono r1 rest x hm
          rw [h'] at hmono
          exact hmono
        · exact walkRTEList_complete r1 rest st' hwf.2 h' x hx2

theorem walkRTE_complete (rels : List Oid) (rte : RTE) (st' : List Oid)
    (hwf : wfRTE rte = true) (h : walkRTE rels rte = (st', none)) :
    ∀ x ∈ reachableRTE rte, x ∈ st' := by
  match rte with
  | .rel relid =>
    intro x hx
    have hx' : x = relid := by
      simpa [reachableRTE] using hx
    subst hx'
    exact pgds_add_rel_array_mem h
  | .subquery q =>
    exact pgds_tree_walker_complete rels q st' hwf h
  | .other =>
    intro x hx
    exact absurd hx (List.not_mem_nil x)

theorem walkCTEList_complete (rels : List Oid) (l : QueryList) (st' : List Oid)
    (hwf : wfQueryList l = true) (h : walkCTEList rels l = (st', none)) :
    ∀ x ∈ reachableQueryList l, x ∈ st' := by
  match l with
  | .nil =>
    intro x hx
    exact absurd hx (List.not_mem_nil x)
  | .cons q rest =>
    simp only [wfQueryList, Bool.and_eq_true] at hwf
    unfold walkCTEList at h
    cases hr : pgds_tree_walker rels q with
    | mk r1 e1 =>
      rw [hr] at h
      cases e1 with
      | some e => exact absurd h (by simp)
      | none =>
        have h' : walkCTEList r1 rest = (st', none) := h
        intro x hx
        unfold reachableQueryList at hx
        rcases List.mem_append.mp hx with hx1 | hx2
        · have hm := pgds_tree_walker_complete rels q r1 hwf.1 hr x hx1
          have hmono := walkCTEList_mono r1 rest x hm
          rw [h'] at hmono
          exact hmono
        · exact walkCTEList_complete r1 rest st' hwf.2 h' x hx2

theorem pgds_sublink_walker_complete (rels : List Oid) (e : Expr) (st' : List Oid)
    (hwf : wfExpr e = true) (h : pgds_sublink_walker rels e = (st', none)) :
    ∀ x ∈ reachableExpr e, x ∈ st' := by
  match e with
  | .sublink testexpr subselect =>
    simp only [wfExpr, Bool.and_eq_true] at hwf
    unfold pgds_sublink_walker at h
    cases hr : pgds_tree_walker rels subselect with
    | mk r1 e1 =>
      rw [hr] at h
      cases e1 with
      | some er => exact absurd h (by simp)
      | none =>
        have h' : walkExprList r1 testexpr = (st', none) := h
        intro x hx
        unfold reachableExpr at hx
        rcases List.mem_append.mp hx with hx1 | hx2
        · have hm := pgds_tree_walker_complete rels subselect r1 hwf.1 hr x hx1
          have hmono := walkExprList_mono r1 testexpr x hm
          rw [h'] at hmono
          exact hmono
        · exact walkExprList_complete r1 testexpr st' hwf.2 h' x hx2
  | .opE args =>
    exact walkExprList_complete rels args st' hwf h

theorem walkExprList_complete (rels : List Oid) (l : ExprList) (st' : List Oid)
    (hwf : wfExprList l = true) (h : walkExprList rels l = (st', none)) :
    ∀ x ∈ reachableExprList l, x ∈ st' := by
  match l with
  | .nil =>
    intro x hx
    exact absurd hx (List.not_mem_nil x)
  | .cons e rest =>
    simp only [wfExprList, Bool.and_eq_true] at hwf
    unfold walkExprList at h
    cases hr : pgds_sublink_walker rels e with
    | mk r1 e1 =>
      rw [hr] at h
      cases e1 with
      | some er => exact absurd h (by simp)
      | none =>
        have h' : walkExprList r1 rest = (st', none) := h
        intro x hx
        unfold reachableExprList at hx
        rcases List.mem_append.mp hx with hx1 | hx2
        · have hm := pgds_sublink_walker_complete rels e r1 hwf.1 hr x hx1
          have hmono := walkExprList_mono r1 rest x hm
          rw [h'] at hmono
          exact hmono
        · exact walkExprList_complete r1 rest st' hwf.2 h' x hx2

end

/-- Claim C8: for a well-formed parsed query root (the parser's
`hasSubLinks` flags are accurate), a successful collector walk's output
contains the RelationId of every relation directly named anywhere reachable
from the root through the three recursion channels — range-table entries
(including nested sub-query entries), CTE definitions (walked whether or not
referenced), and expression-embedded sub-links — and a null query root
yields the empty set without error. -/
theorem C8_collector_completeness :
    pgds_build_rel_array [] none = ([], none) ∧
    ∀ (q : Query) (rels st' : List Oid), wfQuery q = true →
      pgds_tree_walker rels q = (st', none) →
      ∀ x ∈ reachableQuery q, x ∈ st' :=
  ⟨rfl, fun q rels st' hwf h x hx => pgds_tree_walker_complete rels q st' hwf h x hx⟩

theorem C8_collector_completeness_witness :
    wfQuery qAll = true ∧ pgds_tree_walker [] qAll = ([1, 2, 3, 4], none) ∧
    (2 : Oid) ∈ ([1, 2, 3, 4] : List Oid) ∧ (4 : Oid) ∈ ([1, 2, 3, 4] : List Oid) :=
  ⟨by decide, by decide,
   C8_collector_completeness.2 qAll [] [1, 2, 3, 4] (by decide) (by decide) 2 (by decide),
   C8_collector_completeness.2 qAll [] [1, 2, 3, 4] (by decide) (by decide) 4 (by decide)⟩
